import Mathlib

/-!
Shallow embedding of the ssh-proxy chat server core (the `server.js` source
file): the input sanitizer, the nickname negotiator run in the
`authentication` handler, the shared `users` registry with its `splice`
removal, the broadcast fan-out of `userBroadcast`, and the session
geometry fallback of the `shell` handler.  Strings are modelled as lists
of UTF-16 code units (`List Nat`), matching JavaScript string semantics
for `length`, `substring`, `replace` and `trim`.
-/

namespace SshChat

/-- JavaScript string: a sequence of UTF-16 code units. -/
abbrev JSStr := List Nat

/-- Embed a Lean string literal as a `JSStr` (all literals used here are
ASCII, where code points and UTF-16 code units coincide). -/
def str (s : String) : JSStr := s.toList.map (fun c => c.toNat)

/-- `MAX_MSG_LEN` from the source. -/
def MAX_MSG_LEN : Nat := 128

/-- `MAX_NAME_LEN` from the source. -/
def MAX_NAME_LEN : Nat := 10

/-- Code units matched by the first alternative `[\x00-\x1F\x7F]` of
`RE_SPECIAL`. -/
def isCtrl (c : Nat) : Bool := c ≤ 0x1F || c == 0x7F

/-- ASCII digit, for the `[0-9]` atoms of `RE_SPECIAL`. -/
def isDigit (c : Nat) : Bool := 0x30 ≤ c && c ≤ 0x39

/-- Candidate match lengths of `[0-9]{1,2}` at the head of `s`, in the
greedy preference order of the regex engine (two digits before one). -/
def digitCounts (s : JSStr) : List Nat :=
  match s with
  | a :: b :: _ => if isDigit a then (if isDigit b then [2, 1] else [1]) else []
  | a :: [] => if isDigit a then [1] else []
  | [] => []

/-- Candidate match lengths of the inner group `(;[0-9]{1,2})` at the head
of `s`, in preference order. -/
def semiCounts (s : JSStr) : List Nat :=
  match s with
  | 59 :: rest => (digitCounts rest).map (fun n => 1 + n)
  | _ => []

/-- Candidate match lengths of `([0-9]{1,2}(;[0-9]{1,2})?)?` at the head of
`s`, in backtracking preference order (greedy: inner group present before
absent, whole group present before absent). -/
def paramCandidates (s : JSStr) : List Nat :=
  ((digitCounts s).flatMap
    (fun m => (semiCounts (s.drop m)).map (fun k => m + k) ++ [m])) ++ [0]

/-- Does the head of `s` match the final character class `[m|K]`? -/
def finalByteOk (s : JSStr) : Bool :=
  match s with
  | c :: _ => c == 109 || c == 124 || c == 75
  | [] => false

/-- Length of a match of the second alternative
`(?:\x1B\[([0-9]{1,2}(;[0-9]{1,2})?)?[m|K])` of `RE_SPECIAL` at the head
of `s`, if any. -/
def ansiMatch (s : JSStr) : Option Nat :=
  match s with
  | 27 :: 91 :: rest =>
      ((paramCandidates rest).find? (fun p => finalByteOk (rest.drop p))).map
        (fun p => p + 3)
  | _ => none

/-- Length of the match of `RE_SPECIAL` at the head of `s`, if any.
ECMAScript disjunction is ordered: the alternative `[\x00-\x1F\x7F]+` is
tried first, and it succeeds (greedily) whenever the head code unit is a
control character — including `\x1B`, so the second alternative is only
consulted when the head is not a control character. -/
def reSpecialMatchLen (s : JSStr) : Option Nat :=
  match s with
  | c :: _ => if isCtrl c then some (s.takeWhile isCtrl).length else ansiMatch s
  | [] => none

/-- One pass of `String.prototype.replace` with the global regex
`RE_SPECIAL` and replacement `""`: scan left to right, removing each match,
keeping non-matching code units.  `fuel` bounds the recursion; every step
consumes at least one code unit, so `fuel = s.length` suffices. -/
def replaceSpecialAux : Nat → JSStr → JSStr
  | 0, s => s
  | _ + 1, [] => []
  | fuel + 1, c :: rest =>
      match reSpecialMatchLen (c :: rest) with
      | some n => replaceSpecialAux fuel (List.drop n (c :: rest))
      | none => c :: replaceSpecialAux fuel rest

/-- `line.replace(RE_SPECIAL, "")` from the `submit` handler. -/
def replaceSpecial (s : JSStr) : JSStr := replaceSpecialAux s.length s

/-- Code units removed by `String.prototype.trim` (ECMAScript WhiteSpace
and LineTerminator). -/
def isWs (c : Nat) : Bool :=
  c == 9 || c == 10 || c == 11 || c == 12 || c == 13 || c == 32 ||
  c == 160 || c == 0x1680 || (0x2000 ≤ c && c ≤ 0x200A) ||
  c == 0x2028 || c == 0x2029 || c == 0x202F || c == 0x205F ||
  c == 0x3000 || c == 0xFEFF

/-- `String.prototype.trim`: drop leading and trailing whitespace. -/
def trimL (s : JSStr) : JSStr :=
  (((s.dropWhile isWs).reverse.dropWhile isWs)).reverse

/-- The sanitizing pipeline of the `submit` handler:
`line = line.replace(RE_SPECIAL, "").trim();
 if (line.length > MAX_MSG_LEN) line = line.substring(0, MAX_MSG_LEN);`. -/
def sanitize (s : JSStr) : JSStr :=
  let line := trimL (replaceSpecial s)
  if MAX_MSG_LEN < line.length then line.take MAX_MSG_LEN else line

/-- An active chat session: the duplex stream accepted by the `shell`
handler, identified by its object identity (`id`) and carrying the
negotiated nickname (`stream.name`). -/
structure Session where
  id : Nat
  name : JSStr
deriving DecidableEq

/-- A rendered line appended to a session's output sink, abstracted by
content kind: the private welcome of `localMessage`, the join/leave
notices, the recipient rendering `{cyan-fg}{bold}name{/}: msg`, and the
author echo `> msg`. -/
inductive Msg where
  | welcome (otherCount : Nat)
  | joined (name : JSStr)
  | left (name : JSStr)
  | chatFrom (name : JSStr) (body : JSStr)
  | echo (body : JSStr)
deriving DecidableEq

/-- The line `userBroadcast` renders for `user`: the author gets the
`> msg` echo, everyone else gets the name-prefixed form. -/
def renderFor (user source : Session) (body : JSStr) : Msg :=
  if user = source then Msg.echo body else Msg.chatFrom source.name body

/-- `userBroadcast(msg, source)`: iterate over `users` in order, calling
`output.add` on each member's sink.  `fails u = true` models
`u.output.add` throwing.  The loop body has no exception handling, so a
throw ends the iteration: the result pairs the deliveries that happened
with `true` iff the loop ran to completion. -/
def userBroadcast (users : List Session) (fails : Session → Bool)
    (source : Session) (body : JSStr) : List (Session × Msg) × Bool :=
  match users with
  | [] => ([], true)
  | u :: rest =>
      if fails u then ([], false)
      else
        let r := userBroadcast rest fails source body
        ((u, renderFor u source body) :: r.1, r.2)

/-- `Array.prototype.indexOf`: index of the first occurrence, `-1` if
absent. -/
def jsIndexOf {α : Type} [DecidableEq α] (a : α) : List α → Int
  | [] => -1
  | b :: rest =>
      if b = a then 0
      else
        let r := jsIndexOf a rest
        if r < 0 then -1 else r + 1

/-- `Array.prototype.splice(i, 1)`: remove one element starting at `i`,
where a negative `i` counts from the end and is clamped at `0`, and an
`i` past the end removes nothing. -/
def spliceRemove1 {α : Type} (l : List α) (i : Int) : List α :=
  let start : Nat :=
    if i < 0 then Int.toNat ((l.length : Int) + i) else min i.toNat l.length
  l.take start ++ l.drop (start + 1)

/-- `users.splice(users.indexOf(stream), 1)` from the `close` handler. -/
def unregisterUsers (users : List Session) (s : Session) : List Session :=
  spliceRemove1 users (jsIndexOf s users)

/-- The whole `close` handler (run with `stream` defined): remove the
session from `users`, then append a "left" notice to every remaining
member's sink. -/
def closeSession (users : List Session) (s : Session) :
    List Session × List (Session × Msg) :=
  let remaining := unregisterUsers users s
  (remaining, remaining.map (fun u => (u, Msg.left s.name)))

/-- The registration part of the `shell` handler: `users.push(stream)`,
then the private welcome via `localMessage` (reporting
`users.length - 1` other users), then the join-notice loop over `users`
that `continue`s on the joining stream itself. -/
def registerSession (users : List Session) (s : Session) :
    List Session × List (Session × Msg) :=
  let users2 := users ++ [s]
  (users2,
    (s, Msg.welcome (users2.length - 1)) ::
      (users2.filter (fun u => u != s)).map (fun u => (u, Msg.joined s.name)))

/-- The action the `submit` handler takes on a raw input line: sanitize,
discard if empty, end the stream on `/quit` or `/exit`, otherwise
broadcast. -/
inductive SubmitAction where
  | ignored
  | quit
  | broadcast (line : JSStr)
deriving DecidableEq

/-- `"/quit"`. -/
def quitCmd : JSStr := str "/quit"

/-- `"/exit"`. -/
def exitCmd : JSStr := str "/exit"

/-- The dispatch of the `submit` handler on a submitted line. -/
def submitAction (raw : JSStr) : SubmitAction :=
  let line := sanitize raw
  if 0 < line.length then
    if line = quitCmd ∨ line = exitCmd then SubmitAction.quit
    else SubmitAction.broadcast line
  else SubmitAction.ignored

/-- `String.prototype.toLowerCase` on one code unit (simple case mapping;
every code unit appearing in these claims is ASCII, where this is exact). -/
def toLowerCode (c : Nat) : Nat := if 65 ≤ c ∧ c ≤ 90 then c + 32 else c

/-- `String.prototype.toLowerCase`. -/
def toLower (s : JSStr) : JSStr := s.map toLowerCode

/-- The duplicate scan of the `authentication` handler and of
`retryPrompt`: is some registered user's name case-insensitively equal to
`nick`? -/
def nickTaken (users : List JSStr) (nick : JSStr) : Bool :=
  users.any (fun u => toLower u == toLower nick)

/-- `"keyboard-interactive"`. -/
def kbdInteractive : JSStr := str "keyboard-interactive"

/-- `PROMPT_NAME` from the source (with `MAX_NAME_LEN` interpolated). -/
def PROMPT_NAME : JSStr := str "Enter a nickname to use (max 10 chars): "

/-- The "too long" prompt text. -/
def tooLongMsg : JSStr := str "That nickname is too long.\n" ++ PROMPT_NAME

/-- The "required" prompt text. -/
def requiredMsg : JSStr := str "A nickname is required.\n" ++ PROMPT_NAME

/-- The "already in use" prompt text. -/
def inUseMsg : JSStr := str "That nickname is already in use.\n" ++ PROMPT_NAME

/-- Outcome of one step of the `authentication` handler: `ctx.accept()`,
`ctx.reject(methods)`, or `ctx.prompt(text, retryPrompt)`. -/
inductive AuthOutcome where
  | accept (name : JSStr)
  | reject (methods : List JSStr)
  | prompt (text : JSStr)
deriving DecidableEq

/-- The initial body of the `authentication` handler, evaluating
`ctx.username` against the length and uniqueness checks and falling back
to a reject or a prompt according to `ctx.method`. -/
def authInitial (username method : JSStr) (users : List JSStr) : AuthOutcome :=
  if 0 < username.length ∧ username.length ≤ MAX_NAME_LEN then
    if nickTaken users username then
      if method == kbdInteractive then AuthOutcome.prompt inUseMsg
      else AuthOutcome.reject [kbdInteractive]
    else AuthOutcome.accept username
  else if username.length = 0 then
    if method == kbdInteractive then AuthOutcome.prompt requiredMsg
    else AuthOutcome.reject [kbdInteractive]
  else
    if method == kbdInteractive then AuthOutcome.prompt tooLongMsg
    else AuthOutcome.reject [kbdInteractive]

/-- One invocation of `retryPrompt` on the `answers` array of a prompt
response. -/
def retryStep (users : List JSStr) (answers : List JSStr) : AuthOutcome :=
  match answers with
  | [] => AuthOutcome.reject [kbdInteractive]
  | nick :: _ =>
      if MAX_NAME_LEN < nick.length then AuthOutcome.prompt tooLongMsg
      else if nick.length = 0 then AuthOutcome.prompt requiredMsg
      else if nickTaken users nick then AuthOutcome.prompt inUseMsg
      else AuthOutcome.accept nick

/-- Result of driving a negotiation with a finite script of prompt
answers: accepted, rejected, or still awaiting an answer to `text`. -/
inductive NegoResult where
  | accepted (name : JSStr)
  | rejected (methods : List JSStr)
  | awaiting (text : JSStr)
deriving DecidableEq

/-- Drive the `retryPrompt` loop with a script of answer arrays (one per
issued prompt). -/
def runRetries (users : List JSStr) : JSStr → List (List JSStr) → NegoResult
  | t, [] => NegoResult.awaiting t
  | _, answers :: rest =>
      match retryStep users answers with
      | AuthOutcome.accept n => NegoResult.accepted n
      | AuthOutcome.reject m => NegoResult.rejected m
      | AuthOutcome.prompt t2 => runRetries users t2 rest

/-- The whole nickname negotiation of one connection: the initial
evaluation of `ctx.username`, then the `retryPrompt` loop driven by
`script`. -/
def negotiate (username method : JSStr) (users : List JSStr)
    (script : List (List JSStr)) : NegoResult :=
  match authInitial username method users with
  | AuthOutcome.accept n => NegoResult.accepted n
  | AuthOutcome.reject m => NegoResult.rejected m
  | AuthOutcome.prompt t => runRetries users t script

/-- The condition under which a negotiation step resolves `nick`: the
length window and the case-insensitive uniqueness scan over the currently
registered users. -/
def validNick (users : List JSStr) (nick : JSStr) : Prop :=
  1 ≤ nick.length ∧ nick.length ≤ MAX_NAME_LEN ∧ nickTaken users nick = false

instance (users : List JSStr) (nick : JSStr) : Decidable (validNick users nick) := by
  unfold validNick
  infer_instance

/-- Global state of the two-phase admission the source performs: `users`
holds registered names (sessions whose `shell` handler has run), `pending`
holds names whose negotiation has been accepted but whose session is not
yet registered. -/
structure TwoPhaseState where
  users : List JSStr
  pending : List JSStr
deriving DecidableEq

/-- Interleaved steps of the source's admission protocol: a negotiation
resolves a nickname against the *registered* users only (the
`authentication` handler scans `users`); registration later pushes the
name with no re-check (the `shell` handler); a close erases a registered
name. -/
inductive TwoPhaseStep : TwoPhaseState → TwoPhaseState → Prop where
  | nego (s : TwoPhaseState) (nick : JSStr) : validNick s.users nick →
      TwoPhaseStep s ⟨s.users, s.pending ++ [nick]⟩
  | enroll (s : TwoPhaseState) (nick : JSStr) : nick ∈ s.pending →
      TwoPhaseStep s ⟨s.users ++ [nick], s.pending.erase nick⟩
  | close (s : TwoPhaseState) (nick : JSStr) : nick ∈ s.users →
      TwoPhaseStep s ⟨s.users.erase nick, s.pending⟩

/-- States reachable from the empty registry by interleaved
negotiations, registrations and closes. -/
inductive TwoPhaseReachable : TwoPhaseState → Prop where
  | init : TwoPhaseReachable ⟨[], []⟩
  | step {s t : TwoPhaseState} : TwoPhaseReachable s → TwoPhaseStep s t →
      TwoPhaseReachable t

/-- Pairwise case-insensitive distinctness of the registered names. -/
def namesDistinct (users : List JSStr) : Prop :=
  List.Pairwise (fun a b => toLower a ≠ toLower b) users

/-- Admission with the uniqueness check and the registration performed
atomically (no other registration interleaves between a session's check
and its push): the amended protocol. -/
inductive AtomicStep : List JSStr → List JSStr → Prop where
  | enroll (users : List JSStr) (nick : JSStr) : validNick users nick →
      AtomicStep users (users ++ [nick])
  | close (users : List JSStr) (nick : JSStr) : nick ∈ users →
      AtomicStep users (users.erase nick)

/-- Registries reachable under atomic check-and-register admission. -/
inductive AtomicReachable : List JSStr → Prop where
  | init : AtomicReachable []
  | step {u v : List JSStr} : AtomicReachable u → AtomicStep u v →
      AtomicReachable v

/-- Geometry reported by a `pty` request: `info.rows` and `info.cols`. -/
structure PtyInfo where
  rows : Nat
  cols : Nat
deriving DecidableEq

/-- JavaScript `x || d` where `x` is an undefined-or-number variable:
`undefined` and `0` are falsy and yield `d`. -/
def jsOrNum (v : Option Nat) (d : Nat) : Nat :=
  match v with
  | Option.none => d
  | Option.some n => if n = 0 then d else n

/-- `stream.rows = rows || 24; stream.columns = cols || 80;` from the
`shell` handler, where `rows`/`cols` were set by the `pty` handler if a
pseudo-terminal request arrived and are `undefined` otherwise. -/
def sessionGeometry (pty : Option PtyInfo) : Nat × Nat :=
  (jsOrNum (pty.map (fun i => i.rows)) 24, jsOrNum (pty.map (fun i => i.cols)) 80)

/-- Does the string avoid ending in a whitespace code unit? -/
def noTrailWs (s : JSStr) : Bool :=
  match s.getLast? with
  | Option.none => true
  | Option.some c => !isWs c

/-- A concrete 129-code-unit line: 127 `a`s, a space, then `b`. -/
def sanIdemCex : JSStr := List.replicate 127 97 ++ [32, 98]

/-- A concrete line starting with the ANSI colour sequence `ESC [ 3 1 m`. -/
def ansiCexInput : JSStr := 27 :: str "[31mhi"

/-- A concrete session used in witnesses and counterexamples. -/
def sA : Session := ⟨0, str "amy"⟩

/-- A concrete session used in witnesses and counterexamples. -/
def sB : Session := ⟨1, str "bob"⟩

/-- A concrete session used in witnesses and counterexamples. -/
def sC : Session := ⟨2, str "cal"⟩

theorem ansiMatch_none {c : Nat} {rest : JSStr} (h : isCtrl c = false) :
    ansiMatch (c :: rest) = none := by
  unfold ansiMatch
  split
  · next heq =>
    injection heq with h1 _
    subst h1
    exact absurd h (by decide)
  · rfl

theorem drop_length_takeWhile (p : Nat → Bool) (s : JSStr) :
    s.drop (s.takeWhile p).length = s.dropWhile p := by
  induction s with
  | nil => rfl
  | cons a t ih =>
    by_cases h : p a = true
    · simp [List.takeWhile_cons, List.dropWhile_cons, h, ih]
    · simp [List.takeWhile_cons, List.dropWhile_cons, h]

theorem replaceSpecialAux_eq_filter :
    ∀ (fuel : Nat) (s : JSStr), s.length ≤ fuel →
      replaceSpecialAux fuel s = s.filter (fun c => !isCtrl c) := by
  intro fuel
  induction fuel with
  | zero =>
    intro s h
    have hs : s = [] := List.eq_nil_of_length_eq_zero (Nat.le_zero.mp h)
    subst hs
    rfl
  | succ n ih =>
    intro s h
    match s with
    | [] => rfl
    | c :: rest =>
      by_cases hc : isCtrl c = true
      · have hm : reSpecialMatchLen (c :: rest) =
            some ((c :: rest).takeWhile isCtrl).length := by
          simp [reSpecialMatchLen, hc]
        rw [replaceSpecialAux, hm]
        show replaceSpecialAux n
            (List.drop ((c :: rest).takeWhile isCtrl).length (c :: rest)) = _
        rw [drop_length_takeWhile]
        rw [List.dropWhile_cons, if_pos hc]
        rw [ih _ (Nat.le_trans ((List.dropWhile_sublist isCtrl).length_le)
          (Nat.le_of_succ_le_succ h))]
        have hdec : rest.filter (fun c => !isCtrl c) =
            (rest.dropWhile isCtrl).filter (fun c => !isCtrl c) := by
          conv_lhs => rw [← List.takeWhile_append_dropWhile (p := isCtrl) (l := rest)]
          rw [List.filter_append]
          have hnil : (rest.takeWhile isCtrl).filter (fun c => !isCtrl c) = [] := by
            rw [List.filter_eq_nil_iff]
            intro a ha
            simp [List.mem_takeWhile_imp ha]
          rw [hnil, List.nil_append]
        rw [List.filter_cons_of_neg (by simp [hc]), hdec]
      · have hm : reSpecialMatchLen (c :: rest) = none := by
          simp only [reSpecialMatchLen, Bool.not_eq_true] at hc ⊢
          rw [if_neg (by simp [hc])]
          exact ansiMatch_none hc
        rw [replaceSpecialAux, hm]
        show c :: replaceSpecialAux n rest = _
        rw [ih rest (Nat.le_of_succ_le_succ h)]
        rw [List.filter_cons_of_pos (by simp [hc])]

theorem replaceSpecial_eq_filter (s : JSStr) :
    replaceSpecial s = s.filter (fun c => !isCtrl c) :=
  replaceSpecialAux_eq_filter s.length s (Nat.le_refl _)

theorem sanitize_eq (s : JSStr) :
    sanitize s = (trimL (s.filter (fun c => !isCtrl c))).take MAX_MSG_LEN := by
  unfold sanitize
  rw [replaceSpecial_eq_filter]
  by_cases h : MAX_MSG_LEN < (trimL (s.filter (fun c => !isCtrl c))).length
  · simp [h]
  · simp only [if_neg h]
    rw [List.take_of_length_le (Nat.le_of_not_lt h)]

theorem head_of_dropWhile {p : Nat → Bool} {l : JSStr} {c : Nat}
    (h : (l.dropWhile p).head? = some c) : p c = false := by
  induction l with
  | nil => simp [List.dropWhile] at h
  | cons a t ih =>
    rw [List.dropWhile_cons] at h
    by_cases hp : p a = true
    · rw [if_pos hp] at h
      exact ih h
    · rw [if_neg hp] at h
      simp only [List.head?_cons, Option.some_inj] at h
      subst h
      exact Bool.not_eq_true _ ▸ hp

theorem dropWhile_eq_self_of_head {p : Nat → Bool} {l : JSStr}
    (h : ∀ c, l.head? = some c → p c = false) : l.dropWhile p = l := by
  cases l with
  | nil => rfl
  | cons a t =>
    rw [List.dropWhile_cons, if_neg]
    simp [h a rfl]

theorem head_append_left {l m : JSStr} {c : Nat} (h : l.head? = some c) :
    (l ++ m).head? = some c := by
  cases l with
  | nil => simp at h
  | cons a t => simpa using h

theorem trimL_decomp (s : JSStr) :
    trimL s ++ ((s.dropWhile isWs).reverse.takeWhile isWs).reverse =
      s.dropWhile isWs := by
  unfold trimL
  rw [← List.reverse_append, List.takeWhile_append_dropWhile, List.reverse_reverse]

theorem trimL_head {s : JSStr} {c : Nat} (h : (trimL s).head? = some c) :
    isWs c = false := by
  have h2 : (s.dropWhile isWs).head? = some c := by
    rw [← trimL_decomp s]
    exact head_append_left h
  exact head_of_dropWhile h2

theorem trimL_eq_self {s : JSStr}
    (h1 : ∀ c, s.head? = some c → isWs c = false)
    (h2 : ∀ c, s.getLast? = some c → isWs c = false) : trimL s = s := by
  unfold trimL
  rw [dropWhile_eq_self_of_head h1]
  rw [dropWhile_eq_self_of_head (fun c hc => h2 c (List.head?_reverse s ▸ hc))]
  exact List.reverse_reverse s

theorem mem_trimL {s : JSStr} {c : Nat} (h : c ∈ trimL s) : c ∈ s := by
  unfold trimL at h
  rw [List.mem_reverse] at h
  have h2 := List.dropWhile_subset isWs h
  rw [List.mem_reverse] at h2
  exact List.dropWhile_subset isWs h2

theorem head_of_take {l : JSStr} {n : Nat} {c : Nat}
    (h : (l.take n).head? = some c) : l.head? = some c := by
  cases n with
  | zero => simp at h
  | succ m =>
    cases l with
    | nil => simp at h
    | cons a t => simpa using h

theorem sanitize_mem_not_ctrl {x : JSStr} {c : Nat} (h : c ∈ sanitize x) :
    isCtrl c = false := by
  rw [sanitize_eq] at h
  have h2 := mem_trimL (List.take_subset _ _ h)
  simp only [List.mem_filter, Bool.not_eq_true'] at h2
  exact h2.2

theorem sanitize_head_not_ws {x : JSStr} {c : Nat}
    (h : (sanitize x).head? = some c) : isWs c = false := by
  rw [sanitize_eq] at h
  exact trimL_head (head_of_take h)

theorem sanitize_length_le (x : JSStr) : (sanitize x).length ≤ MAX_MSG_LEN := by
  rw [sanitize_eq, List.length_take]
  exact Nat.min_le_left _ _

/-- Claim C3 (amended): the sanitizer is idempotent on every input whose
sanitized form does not end in a whitespace code unit — in particular
whenever no truncation occurs.  (Truncation at 128 can cut just after an
interior space, and the second application then trims that trailing
space, which is the only way idempotence fails.) -/
theorem C3_sanitize_idem (x : JSStr) (h : noTrailWs (sanitize x) = true) :
    sanitize (sanitize x) = sanitize x := by
  have hlast : ∀ c, (sanitize x).getLast? = some c → isWs c = false := by
    intro c hc
    unfold noTrailWs at h
    rw [hc] at h
    simpa using h
  rw [sanitize_eq (sanitize x)]
  rw [List.filter_eq_self.mpr (fun a ha => by simp [sanitize_mem_not_ctrl ha])]
  rw [trimL_eq_self (fun c hc => sanitize_head_not_ws hc) hlast]
  exact List.take_of_length_le (sanitize_length_le x)

/-- Witness for the amended claim C3 at a concrete input. -/
theorem C3_sanitize_idem_witness :
    noTrailWs (sanitize (str "hello")) = true ∧
      sanitize (sanitize (str "hello")) = sanitize (str "hello") :=
  ⟨by decide, C3_sanitize_idem (str "hello") (by decide)⟩

set_option maxRecDepth 20000 in
/-- Claim C3 counterexample: sanitize is not idempotent.  On 127 `a`s
followed by `" b"`, truncation to 128 cuts right after the interior
space, so the first sanitize ends in a space and the second sanitize
trims it away. -/
theorem C3_counterexample :
    sanitize (sanitize sanIdemCex) ≠ sanitize sanIdemCex := by decide

/-- Claim C4: the sanitizer is claimed to remove every ANSI styling
escape sequence with no part remaining.  It does not: the first regex
alternative `[\x00-\x1F\x7F]+` already matches the leading `ESC` of a
sequence (ECMAScript alternation is ordered), so the second alternative
never fires and the bracket-parameter tail `[31m` survives in the
output. -/
theorem C4_ansi_residue :
    sanitize ansiCexInput = str "[31mhi" ∧ str "[31mhi" ≠ str "hi" := by decide

/-- Claim C10: with no pseudo-terminal request the geometry falls back to
24 rows and 80 columns, a reported 0 rows or 0 columns is likewise
replaced by its fallback, and a non-zero report is stored unchanged. -/
theorem C10_geometry_fallback :
    sessionGeometry Option.none = (24, 80) ∧
      (∀ r c : Nat, r = 0 → (sessionGeometry (Option.some ⟨r, c⟩)).1 = 24) ∧
      (∀ r c : Nat, c = 0 → (sessionGeometry (Option.some ⟨r, c⟩)).2 = 80) ∧
      (∀ r c : Nat, r ≠ 0 → (sessionGeometry (Option.some ⟨r, c⟩)).1 = r) ∧
      (∀ r c : Nat, c ≠ 0 → (sessionGeometry (Option.some ⟨r, c⟩)).2 = c) := by
  refine ⟨rfl, ?_, ?_, ?_, ?_⟩ <;> intro r c h <;> simp [sessionGeometry, jsOrNum, h]

/-- Witness for claim C10 at concrete pty reports. -/
theorem C10_geometry_fallback_witness :
    (sessionGeometry (Option.some ⟨0, 37⟩)).1 = 24 ∧
      (sessionGeometry (Option.some ⟨55, 0⟩)).2 = 80 :=
  ⟨C10_geometry_fallback.2.1 0 37 rfl, C10_geometry_fallback.2.2.1 55 0 rfl⟩

/-- Claim C9: an empty answers array makes `retryPrompt` reject with
keyboard-interactive as the only allowed method (no further prompt),
while a single empty-string answer re-prompts with the "required"
message. -/
theorem C9_retry_empty_answers (users : List JSStr) :
    retryStep users [] = AuthOutcome.reject [kbdInteractive] ∧
      retryStep users [str ""] = AuthOutcome.prompt requiredMsg :=
  ⟨rfl, rfl⟩

theorem retryStep_accept_bounds {users answers : List JSStr} {n : JSStr}
    (h : retryStep users answers = AuthOutcome.accept n) :
    1 ≤ n.length ∧ n.length ≤ MAX_NAME_LEN := by
  cases answers with
  | nil => simp [retryStep] at h
  | cons nick rest =>
    simp only [retryStep] at h
    split at h
    · simp at h
    · split at h
      · simp at h
      · split at h
        · simp at h
        · rename_i h1 h2 _
          injection h with hn
          subst hn
          simp only [MAX_NAME_LEN] at h1 ⊢
          omega

theorem authInitial_accept_bounds {username method : JSStr} {users : List JSStr}
    {n : JSStr} (h : authInitial username method users = AuthOutcome.accept n) :
    1 ≤ n.length ∧ n.length ≤ MAX_NAME_LEN := by
  unfold authInitial at h
  split at h
  · split at h
    · split at h <;> simp at h
    · rename_i hlen _
      injection h with hn
      subst hn
      exact ⟨hlen.1, hlen.2⟩
  · split at h
    · split at h <;> simp at h
    · split at h <;> simp at h

theorem runRetries_accept_bounds {users : List JSStr} {n : JSStr} :
    ∀ (t : JSStr) (script : List (List JSStr)),
      runRetries users t script = NegoResult.accepted n →
      1 ≤ n.length ∧ n.length ≤ MAX_NAME_LEN := by
  intro t script
  induction script generalizing t with
  | nil => intro h; simp [runRetries] at h
  | cons answers rest ih =>
    intro h
    unfold runRetries at h
    cases hr : retryStep users answers with
    | accept m =>
      rw [hr] at h
      injection h with hn
      subst hn
      exact retryStep_accept_bounds hr
    | reject m => rw [hr] at h; simp at h
    | prompt t2 => rw [hr] at h; exact ih t2 h

/-- Claim C6: every nickname the negotiator accepts — via the initial
candidate or via any retry answer — has length between 1 and 10
inclusive. -/
theorem C6_accepted_name_bounds (username method : JSStr) (users : List JSStr)
    (script : List (List JSStr)) (n : JSStr)
    (h : negotiate username method users script = NegoResult.accepted n) :
    1 ≤ n.length ∧ n.length ≤ MAX_NAME_LEN := by
  unfold negotiate at h
  cases ha : authInitial username method users with
  | accept m =>
    rw [ha] at h
    injection h with hn
    subst hn
    exact authInitial_accept_bounds ha
  | reject m => rw [ha] at h; simp at h
  | prompt t => rw [ha] at h; exact runRetries_accept_bounds t script h

/-- Witness for claim C6 at a concrete accepted negotiation. -/
theorem C6_accepted_name_bounds_witness :
    1 ≤ (str "bob").length ∧ (str "bob").length ≤ MAX_NAME_LEN :=
  C6_accepted_name_bounds (str "bob") kbdInteractive [] [] (str "bob") (by decide)

/-- Claim C1 counterexample: with members `[sA, sB, sC]` and `sB`'s sink
throwing on write, a broadcast authored by `sA` delivers to `sA` only:
`sC`, a member distinct from the failing recipient, receives nothing and
the fan-out loop does not complete. -/
theorem C1_counterexample :
    userBroadcast [sA, sB, sC] (fun u => decide (u = sB)) sA (str "hi") =
        ([(sA, Msg.echo (str "hi"))], false) ∧
      (sC, Msg.chatFrom sA.name (str "hi")) ∉
        (userBroadcast [sA, sB, sC] (fun u => decide (u = sB)) sA (str "hi")).1 := by
  decide

/-- Claim C1 (amended): during a broadcast, members strictly before the
first failing recipient in registration order do receive their rendered
line, but the failing recipient and every member after it receive
nothing and the fan-out loop aborts (the sink error propagates out of
`userBroadcast`). -/
theorem C1_broadcast_aborts (p q : List Session) (f source : Session)
    (body : JSStr) (fails : Session → Bool)
    (hp : ∀ u ∈ p, fails u = false) (hf : fails f = true) :
    userBroadcast (p ++ f :: q) fails source body =
      (p.map (fun u => (u, renderFor u source body)), false) := by
  induction p with
  | nil => simp [userBroadcast, hf]
  | cons u rest ih =>
    have hu : fails u = false := hp u (List.mem_cons_self u rest)
    rw [List.cons_append, userBroadcast, if_neg (by simp [hu])]
    rw [ih (fun v hv => hp v (List.mem_cons_of_mem u hv))]
    simp

/-- Witness for the amended claim C1 at a concrete member list. -/
theorem C1_broadcast_aborts_witness :
    userBroadcast [sA, sB, sC] (fun u => decide (u = sB)) sA (str "ok") =
      ([(sA, Msg.echo (str "ok"))], false) := by
  have h := C1_broadcast_aborts [sA] [sC] sB sA (str "ok")
    (fun u => decide (u = sB)) (by decide) (by decide)
  simpa [renderFor] using h

theorem jsIndexOf_not_mem {α : Type} [DecidableEq α] {a : α} {l : List α}
    (h : a ∉ l) : jsIndexOf a l = -1 := by
  induction l with
  | nil => rfl
  | cons b rest ih =>
    rw [List.mem_cons, not_or] at h
    unfold jsIndexOf
    rw [if_neg (fun e => h.1 e.symm)]
    simp only [ih h.2]
    rfl

/-- Claim C2 counterexample: closing a session that is not in the
registry is not a no-op — `indexOf` yields `-1` and `splice(-1, 1)`
removes the last registered member (`sB`). -/
theorem C2_counterexample :
    sC ∉ [sA, sB] ∧ unregisterUsers [sA, sB] sC = [sA] ∧
      unregisterUsers [sA, sB] sC ≠ [sA, sB] := by decide

/-- Claim C2 (amended): for a session that is not a member, the
connection-close removal path removes the last registered member (and is
a no-op only on an empty registry): `users.indexOf` returns `-1`, and
`splice(-1, 1)` deletes at index `length - 1`. -/
theorem C2_unregister_unknown (users : List Session) (s : Session)
    (h : s ∉ users) : unregisterUsers users s = users.dropLast := by
  unfold unregisterUsers
  rw [jsIndexOf_not_mem h]
  cases users with
  | nil => rfl
  | cons a t =>
    have hstep : spliceRemove1 (a :: t) (-1) =
        List.take t.length (a :: t) ++ List.drop (t.length + 1) (a :: t) := by
      unfold spliceRemove1
      rw [if_pos (by norm_num : (-1 : Int) < 0)]
      rw [show Int.toNat (((a :: t).length : Int) + -1) = t.length by
        rw [List.length_cons]; omega]
    rw [hstep]
    rw [List.drop_eq_nil_of_le (le_of_eq (List.length_cons a t))]
    rw [List.append_nil, List.dropLast_eq_take, List.length_cons]
    norm_num

/-- Witness for the amended claim C2. -/
theorem C2_unregister_unknown_witness :
    sC ∉ [sB, sA] ∧ unregisterUsers [sB, sA] sC = List.dropLast [sB, sA] :=
  ⟨by decide, C2_unregister_unknown [sB, sA] sC (by decide)⟩

/-- Claim C7: on registration the joining session receives exactly one
delivery — the private welcome reporting `registry size at registration
minus one` other users — while each prior member receives the public
joined notice and the joining session never receives that notice. -/
theorem C7_register_welcome (users : List Session) (s : Session)
    (h : s ∉ users) :
    (registerSession users s).1 = users ++ [s] ∧
      (registerSession users s).2.filter (fun d => d.1 == s) =
        [(s, Msg.welcome ((users ++ [s]).length - 1))] ∧
      (∀ u ∈ users, (u, Msg.joined s.name) ∈ (registerSession users s).2) := by
  have hnil : (((users ++ [s]).filter (fun u => u != s)).map
      (fun u => (u, Msg.joined s.name))).filter (fun d => d.1 == s) = [] := by
    rw [List.filter_eq_nil_iff]
    intro d hd
    rw [List.mem_map] at hd
    obtain ⟨u, hu, rfl⟩ := hd
    rw [List.mem_filter] at hu
    simp only [bne_iff_ne, ne_eq] at hu
    simp [hu.2]
  refine ⟨rfl, ?_, ?_⟩
  · show List.filter _ ((s, Msg.welcome ((users ++ [s]).length - 1)) :: _) = _
    rw [List.filter_cons_of_pos (by simp), hnil]
  · intro u hu
    have hne : u ≠ s := fun e => h (e ▸ hu)
    refine List.mem_cons_of_mem _ ?_
    rw [List.mem_map]
    refine ⟨u, ?_, rfl⟩
    rw [List.mem_filter]
    exact ⟨List.mem_append_left _ hu, by simp [hne]⟩

/-- Witness for claim C7 at a concrete registry. -/
theorem C7_register_welcome_witness :
    (registerSession [sA] sB).2.filter (fun d => d.1 == sB) =
        [(sB, Msg.welcome (([sA] ++ [sB]).length - 1))] ∧
      (sA, Msg.joined sB.name) ∈ (registerSession [sA] sB).2 := by
  have h := C7_register_welcome [sA] sB (by decide)
  exact ⟨h.2.1, h.2.2 sA (by decide)⟩

/-- Claim C5 counterexample: two interleaved negotiations that both pass
the uniqueness check against the registered users before either session
registers admit `alice` and `Alice` together, so a state with two
case-insensitively equal nicknames is reachable. -/
theorem C5_counterexample :
    TwoPhaseReachable ⟨[str "alice", str "Alice"], []⟩ ∧
      ¬ namesDistinct [str "alice", str "Alice"] := by
  constructor
  · have h0 : TwoPhaseReachable ⟨[], []⟩ := TwoPhaseReachable.init
    have h1 := TwoPhaseReachable.step h0
      (TwoPhaseStep.nego ⟨[], []⟩ (str "alice") (by decide))
    have h2 := TwoPhaseReachable.step h1
      (TwoPhaseStep.nego ⟨[], [str "alice"]⟩ (str "Alice") (by decide))
    have h3 := TwoPhaseReachable.step h2
      (TwoPhaseStep.enroll ⟨[], [str "alice", str "Alice"]⟩ (str "alice")
        (by decide))
    have h4 := TwoPhaseReachable.step h3
      (TwoPhaseStep.enroll ⟨[str "alice"], [str "Alice"]⟩ (str "Alice")
        (by decide))
    exact h4
  · intro hnd
    unfold namesDistinct at hnd
    rw [List.pairwise_cons] at hnd
    exact hnd.1 (str "Alice") (by simp) (by decide)

/-- Claim C5 (amended): nickname uniqueness (case-insensitive) does hold
in every reachable registry state provided each admission's uniqueness
check and registration happen atomically, with no other registration
interleaved between them; with the source's two-phase check-then-register
admission, overlapped negotiations can admit duplicates. -/
theorem C5_atomic_distinct (users : List JSStr) (h : AtomicReachable users) :
    namesDistinct users := by
  induction h with
  | init => exact List.Pairwise.nil
  | step hr hs ih =>
    cases hs with
    | enroll nick hv =>
      unfold namesDistinct
      rw [List.pairwise_append]
      refine ⟨ih, List.pairwise_singleton _ _, ?_⟩
      intro a ha b hb
      rw [List.mem_singleton] at hb
      subst hb
      have hts := hv.2.2
      rw [nickTaken, List.any_eq_false] at hts
      have h2 := hts a ha
      simpa using h2
    | close nick hmem =>
      exact List.Pairwise.sublist (List.erase_sublist _ _) ih

/-- Witness for the amended claim C5 at a two-step atomic admission. -/
theorem C5_atomic_distinct_witness : namesDistinct [str "amy", str "bob"] := by
  apply C5_atomic_distinct
  have h0 : AtomicReachable [] := AtomicReachable.init
  have h1 := AtomicReachable.step h0
    (AtomicStep.enroll [] (str "amy") (by decide))
  have h2 := AtomicReachable.step h1
    (AtomicStep.enroll [str "amy"] (str "bob") (by decide))
  exact h2

theorem spliceRemove1_nonneg {α : Type} (l : List α) (i : Int) (h0 : 0 ≤ i)
    (hle : i.toNat ≤ l.length) :
    spliceRemove1 l i = l.take i.toNat ++ l.drop (i.toNat + 1) := by
  unfold spliceRemove1
  rw [if_neg (by omega), Nat.min_eq_left hle]

theorem spliceRemove1_indexOf_mem {α : Type} [DecidableEq α] :
    ∀ (l : List α) (a : α), a ∈ l →
      0 ≤ jsIndexOf a l ∧ jsIndexOf a l < l.length ∧
        spliceRemove1 l (jsIndexOf a l) = l.erase a := by
  intro l
  induction l with
  | nil => intro a ha; simp at ha
  | cons b rest ih =>
    intro a ha
    by_cases hb : b = a
    · subst hb
      have hz : jsIndexOf b (b :: rest) = 0 := by simp [jsIndexOf]
      refine ⟨by rw [hz], by rw [hz, List.length_cons]; push_cast; omega, ?_⟩
      rw [hz, spliceRemove1_nonneg _ _ le_rfl (by simp)]
      simp
    · have ha2 : a ∈ rest := by
        cases List.mem_cons.mp ha with
        | inl e => exact absurd e.symm hb
        | inr h2 => exact h2
      obtain ⟨h0, hlt, hsp⟩ := ih a ha2
      have hidx : jsIndexOf a (b :: rest) = jsIndexOf a rest + 1 := by
        simp only [jsIndexOf]
        rw [if_neg hb, if_neg (by omega)]
      have hrn : (jsIndexOf a rest).toNat < rest.length := by omega
      refine ⟨by omega, by rw [hidx, List.length_cons]; push_cast; omega, ?_⟩
      rw [hidx]
      rw [spliceRemove1_nonneg _ _ (by omega) (by rw [List.length_cons]; omega)]
      rw [show (jsIndexOf a rest + 1).toNat = (jsIndexOf a rest).toNat + 1 by omega]
      rw [List.take_succ_cons, List.drop_succ_cons]
      rw [List.erase_cons_tail (by simp [hb]), List.cons_append]
      congr 1
      rw [← hsp, spliceRemove1_nonneg _ _ h0 (Nat.le_of_lt hrn)]

theorem unregister_mem {users : List Session} {s : Session} (h : s ∈ users) :
    unregisterUsers users s = users.erase s :=
  (spliceRemove1_indexOf_mem users s h).2.2

theorem filter_self_of_nodup {α : Type} [DecidableEq α] :
    ∀ {l : List α} {u : α}, l.Nodup → u ∈ l →
      l.filter (fun v => v == u) = [u] := by
  intro l
  induction l with
  | nil => intro u _ hu; simp at hu
  | cons b rest ih =>
    intro u hn hu
    rw [List.nodup_cons] at hn
    by_cases hb : b = u
    · subst hb
      rw [List.filter_cons_of_pos (by simp)]
      have hnil : rest.filter (fun v => v == b) = [] := by
        rw [List.filter_eq_nil_iff]
        intro a ha
        simp only [beq_iff_eq]
        intro e
        subst e
        exact hn.1 ha
      rw [hnil]
    · have hu2 : u ∈ rest := by
        cases List.mem_cons.mp hu with
        | inl e => exact absurd e.symm hb
        | inr h2 => exact h2
      rw [List.filter_cons_of_neg (by simp [hb])]
      exact ih hn.2 hu2

/-- Claim C8: a line sanitizing to `/quit` or `/exit` makes the submit
handler end the stream without broadcasting; the close handler then
removes the session from the registry, sends no left notice to the
closed session, and delivers exactly one left notice naming it to each
remaining member. -/
theorem C8_quit_flow (users : List Session) (s : Session) (raw : JSStr)
    (hm : s ∈ users) (hd : users.Nodup)
    (hq : sanitize raw = quitCmd ∨ sanitize raw = exitCmd) :
    submitAction raw = SubmitAction.quit ∧
      (closeSession users s).1 = users.erase s ∧
      s ∉ (closeSession users s).1 ∧
      (closeSession users s).2.filter (fun d => d.1 == s) = [] ∧
      (∀ u ∈ (closeSession users s).1,
        (closeSession users s).2.filter (fun d => d.1 == u) =
          [(u, Msg.left s.name)]) := by
  have hclose1 : (closeSession users s).1 = users.erase s := unregister_mem hm
  have hnod : (users.erase s).Nodup := List.Nodup.erase s hd
  refine ⟨?_, hclose1, ?_, ?_, ?_⟩
  · unfold submitAction
    cases hq with
    | inl h2 => rw [h2]; decide
    | inr h2 => rw [h2]; decide
  · rw [hclose1]
    exact List.Nodup.not_mem_erase hd
  · show (List.map _ (unregisterUsers users s)).filter _ = []
    rw [unregister_mem hm, List.filter_eq_nil_iff]
    intro d hd2
    rw [List.mem_map] at hd2
    obtain ⟨u, hu, rfl⟩ := hd2
    simp only [beq_iff_eq]
    intro e
    subst e
    exact List.Nodup.not_mem_erase hd hu
  · intro u hu
    rw [hclose1] at hu
    show (List.map _ (unregisterUsers users s)).filter _ = _
    rw [unregister_mem hm, List.filter_map]
    have hcomp : ((fun d : Session × Msg => d.1 == u) ∘
        (fun v => (v, Msg.left s.name))) = (fun v => v == u) := rfl
    rw [hcomp, filter_self_of_nodup hnod hu]
    rfl

/-- Witness for claim C8 at a concrete registry and raw line. -/
theorem C8_quit_flow_witness :
    submitAction (str "/quit") = SubmitAction.quit ∧
      (closeSession [sA, sB] sB).1 = List.erase [sA, sB] sB := by
  have h := C8_quit_flow [sA, sB] sB (str "/quit") (by decide) (by decide)
    (Or.inl (by decide))
  exact ⟨h.1, h.2.1⟩

end SshChat
